import Mathlib

set_option maxHeartbeats 2000000

/-!
Verification of the data-cleaning pipeline in `src/scripts/data_cleaning.py`
(repository nfagundo/nmt-agent).

Modelling conventions (shallow embedding):

* A line of text is a `List Char`.  Drivers read decoded lines; we model a file
  as the list of its decoded lines (UTF-8/gzip decoding with
  `errors="replace"` is external library behaviour; a decoding failure shows up
  as the replacement character U+FFFD inside the line, which the model keeps).
* Python machine floats are modelled by exact fractions (`Frac`, an
  integer numerator/denominator pair compared by cross-multiplication).  All
  numeric literals relevant to the claims (0.9, 1.1, 3.0, 0.6, 0.2, word
  counts up to thousands) are handled exactly by doubles as well, so the
  modelled comparisons agree with the source on this fragment; rounding of
  doubles at astronomically large operands is not modelled.
* `unicodedata.normalize("NFKC", s)` is external library code; it is modelled
  as the identity, i.e. the model covers inputs fixed by NFKC (in particular
  every ASCII string).
* Character classes (`str.isalpha`, `str.isdigit`, `str.lower`, regex `\d`)
  are modelled on the ASCII fragment; Python additionally accepts non-ASCII
  letters/digits, which are outside the modelled fragment.  `str.isspace` and
  regex `\s` are modelled by the explicit Unicode whitespace code-point list
  below.
* Python `set` used only through membership and insertion is modelled by a
  `List` used as a set.
* Writing a line `s + "\n"` to an output file is modelled by appending `s` to
  the list of output lines (the newline terminator is implicit).
-/

/-- Code points Python treats as whitespace (`str.isspace`, regex `\s` on
`str` patterns): ASCII whitespace, the C1 separators, NEL, NBSP and the
Unicode space separators. -/
def pySpace (c : Char) : Bool :=
  [0x9, 0xA, 0xB, 0xC, 0xD, 0x1C, 0x1D, 0x1E, 0x1F, 0x20, 0x85, 0xA0,
   0x1680, 0x2000, 0x2001, 0x2002, 0x2003, 0x2004, 0x2005, 0x2006, 0x2007,
   0x2008, 0x2009, 0x200A, 0x2028, 0x2029, 0x202F, 0x205F, 0x3000].contains c.toNat

/-- The zero-width / BOM code points of the source's `ZERO_WIDTH` regex class
`(U+FEFF U+200B U+200C U+200D U+2060)`. -/
def isZeroWidth (c : Char) : Bool :=
  [0xFEFF, 0x200B, 0x200C, 0x200D, 0x2060].contains c.toNat

/-- The bracket characters of the source's `BRACKET_CHARS` regex class. -/
def isBracketChar (c : Char) : Bool :=
  ['[', ']', '(', ')', '\x7b', '\x7d'].contains c

/-- Control characters U+0000 - U+001F, the source's `CTRL` regex class. -/
def isCtrlChar (c : Char) : Bool :=
  c.toNat ≤ 0x1F

/-- ASCII decimal digit, modelling regex `\d` / `str.isdigit` on the modelled
fragment. -/
def isDigitPy (c : Char) : Bool :=
  48 ≤ c.toNat && c.toNat ≤ 57

/-- ASCII letter, modelling `str.isalpha` on the modelled fragment. -/
def isAlphaPy (c : Char) : Bool :=
  (65 ≤ c.toNat && c.toNat ≤ 90) || (97 ≤ c.toNat && c.toNat ≤ 122)

/-- ASCII alphanumeric, modelling `str.isalnum` on the modelled fragment. -/
def isAlnumPy (c : Char) : Bool :=
  isAlphaPy c || isDigitPy c

/-- ASCII lowercasing of one character, modelling `str.lower` on the modelled
fragment. -/
def pyLower (c : Char) : Char :=
  if 65 ≤ c.toNat ∧ c.toNat ≤ 90 then Char.ofNat (c.toNat + 32) else c

/-- Python `str.strip()`: drop whitespace from both ends. -/
def pyStrip (l : List Char) : List Char :=
  ((l.dropWhile pySpace).reverse.dropWhile pySpace).reverse

/-- Source `ZERO_WIDTH.sub("", s)`: delete every zero-width/BOM character. -/
def zwStrip (l : List Char) : List Char :=
  l.filter (fun c => !(isZeroWidth c))

/-- Modelled `unicodedata.normalize("NFKC", s)`: external library call,
modelled as the identity (the model covers NFKC-fixed inputs, in particular
all ASCII). -/
def nfkc (l : List Char) : List Char := l

/-- Match of the anchored regex `LEADING_COLON_NUM` = `^\s*:\d+(?:\.\d+)?\s*`:
`some rest` when the pattern matches a proper leading segment, `none`
otherwise.  The optional group `(?:\.\d+)?` consumes the dot only when at
least one digit follows it (regex backtracking). -/
def matchColonNum (l : List Char) : Option (List Char) :=
  match l.dropWhile pySpace with
  | ':' :: r1 =>
    if (r1.takeWhile isDigitPy).isEmpty then none
    else
      let r2 := r1.dropWhile isDigitPy
      let r3 := match r2 with
        | '.' :: r2a =>
          if (r2a.takeWhile isDigitPy).isEmpty then r2 else r2a.dropWhile isDigitPy
        | _ => r2
      some (r3.dropWhile pySpace)
  | _ => none

/-- Source `LEADING_COLON_NUM.sub("", s)`: the pattern is anchored at the
string start, so at most one removal happens; on no match the string is
unchanged. -/
def leadingColonNumSub (l : List Char) : List Char :=
  (matchColonNum l).getD l

/-- Match of the anchored regex `LEADING_ANNOT` =
`^\s*[\[\(\x7b]?\d+(?:\.\d+)?[\]\)\x7d]?\s*` (braces written as their code
points): optional opening bracket, mandatory digits, optional fraction,
optional closing bracket, trailing whitespace.  When the optional opening
bracket is consumed but no digit follows, regex backtracking retries without
it and then fails on the bracket itself, i.e. there is no match.  `annotTail`
consumes the part of the pattern after the optional opening bracket: the
mandatory digits, the digit-guarded optional fraction, the optional closing
bracket and trailing whitespace. -/
def annotTail (b : List Char) : List Char :=
  let r2 := b.dropWhile isDigitPy
  let r3 := if r2.head? = some '.' ∧ ¬(r2.tail.takeWhile isDigitPy).isEmpty
            then r2.tail.dropWhile isDigitPy else r2
  let r4 := if r3.head? = some ']' ∨ r3.head? = some ')' ∨ r3.head? = some '\x7d'
            then r3.tail else r3
  r4.dropWhile pySpace

/-- Match of the remainder of `LEADING_ANNOT` after the mandatory digits have
been located at the head of `b`: skip the digits, the digit-guarded optional
fraction, the optional closing bracket, and trailing whitespace. -/
def matchAnnot (l : List Char) : Option (List Char) :=
  match l.dropWhile pySpace with
  | [] => none
  | c :: rest =>
    if c = '[' ∨ c = '(' ∨ c = '\x7b' then
      if (rest.takeWhile isDigitPy).isEmpty then none else some (annotTail rest)
    else if isDigitPy c then some (annotTail (c :: rest)) else none

/-- Source `LEADING_ANNOT.sub("", s)`: anchored, at most one removal. -/
def leadingAnnotSub (l : List Char) : List Char :=
  (matchAnnot l).getD l

/-- Source `BRACKET_CHARS.sub(" ", s)`: every bracket becomes a space. -/
def bracketSub (l : List Char) : List Char :=
  l.map (fun c => if isBracketChar c then ' ' else c)

/-- Source `CTRL.sub(" ", s)`: every control character becomes a space. -/
def ctrlSub (l : List Char) : List Char :=
  l.map (fun c => if isCtrlChar c then ' ' else c)

/-- Worker for the whitespace-collapsing substitution: the flag records
whether the previous character belonged to a whitespace run that has already
emitted its single replacement space. -/
def collapseAux : Bool → List Char → List Char
  | _, [] => []
  | inRun, c :: r =>
    if pySpace c then
      if inRun then collapseAux true r else ' ' :: collapseAux true r
    else c :: collapseAux false r

/-- Source `re.sub(r"\s+", " ", s)`: replace each maximal whitespace run by a
single space. -/
def collapseWs (l : List Char) : List Char :=
  collapseAux false l

/-- Source `normalize(s, lowercase=True)`: strip, delete zero-width
characters, NFKC, strip a leading `:number` artifact, strip a leading
(possibly bracketed) numeric annotation, turn brackets and control characters
into spaces, collapse whitespace and strip again, optionally lowercase. -/
def normalizeLine (s : List Char) (lowercase : Bool := true) : List Char :=
  let s1 := pyStrip s
  let s2 := zwStrip s1
  let s3 := nfkc s2
  let s4 := leadingColonNumSub s3
  let s5 := leadingAnnotSub s4
  let s6 := bracketSub s5
  let s7 := ctrlSub s6
  let s8 := pyStrip (collapseWs s7)
  if lowercase then s8.map pyLower else s8

/-- Case-insensitive prefix test against an all-lowercase ASCII pattern,
used to model the case-insensitive `URLISH` regex alternatives. -/
def ciStartsWith : List Char → List Char → Bool
  | [], _ => true
  | _ :: _, [] => false
  | p :: ps, c :: cs => (pyLower c = p) && ciStartsWith ps cs

/-- Source `URLISH.search(s)`: the regex `(https?://|www\.)` with
`re.IGNORECASE` matches somewhere in the line. -/
def urlish (l : List Char) : Bool :=
  l.tails.any (fun t =>
    ciStartsWith (("http://").data) t || ciStartsWith (("https://").data) t ||
      ciStartsWith (("www.").data) t)

/-- An HTML-tag match `<[^>]+>` starting at this position: a `<`, then at
least one non-`>` character, then a `>`. -/
def tagAt : List Char → Bool
  | '<' :: r => !(r.takeWhile (fun c => c ≠ '>')).isEmpty && !(r.dropWhile (fun c => c ≠ '>')).isEmpty
  | _ => false

/-- A numeric character reference `&#\d+;` starting at this position. -/
def numRefAt : List Char → Bool
  | '&' :: '#' :: r =>
    !(r.takeWhile isDigitPy).isEmpty &&
      (match r.dropWhile isDigitPy with
       | ';' :: _ => true
       | _ => false)
  | _ => false

/-- A literal `&nbsp;` starting at this position. -/
def nbspAt (l : List Char) : Bool :=
  ("&nbsp;").data.isPrefixOf l

/-- Source `HTMLISH.search(s)`: the regex `(<[^>]+>|&nbsp;|&#\d+;)` matches
somewhere in the line. -/
def htmlish (l : List Char) : Bool :=
  l.tails.any (fun t => tagAt t || nbspAt t || numRefAt t)

/-- The Unicode replacement character U+FFFD. -/
def replChar : Char := '�'

/-- Source `bad_line(s)`: empty line, replacement character, URL-ish or
HTML-ish match, or no alphabetic character at all. -/
def bad_line (s : List Char) : Bool :=
  if s.isEmpty then true
  else if s.contains replChar then true
  else if urlish s || htmlish s then true
  else if !(s.any isAlphaPy) then true
  else false

/-- Worker for `str.split()`: accumulates the current word (reversed). -/
def pySplitAux : List Char → List Char → List (List Char)
  | [], w => if w.isEmpty then [] else [w.reverse]
  | c :: r, w =>
    if pySpace c then
      if w.isEmpty then pySplitAux r [] else w.reverse :: pySplitAux r []
    else pySplitAux r (c :: w)

/-- Python `str.split()` with no argument: split on whitespace runs,
discarding empty fields. -/
def pySplit (l : List Char) : List (List Char) :=
  pySplitAux l []

/-- Value of a digit string, most significant digit first. -/
def digitsVal (ds : List Char) : Nat :=
  ds.foldl (fun a c => 10 * a + (c.toNat - 48)) 0

/-- An exact fraction, modelling a Python float value.  Every `Frac` the
model constructs has a positive denominator; comparisons cross-multiply, so
they are exact (doubles would round, which only matters far outside the
numeric range the pipeline sees). -/
structure Frac where
  num : Int
  den : Int
deriving DecidableEq

/-- Strict order on fractions with positive denominators. -/
def fracLt (a b : Frac) : Bool :=
  a.num * b.den < b.num * a.den

/-- The rational number a fraction denotes. -/
def Frac.toRat (a : Frac) : Rat :=
  (a.num : Rat) / (a.den : Rat)

/-- Exponent part after the `e`/`E` of a float literal: optional sign then
digits, which must end the string. -/
def parseExpPart (l : List Char) : Option Int :=
  let p : Int × List Char :=
    match l with
    | '+' :: r => (1, r)
    | '-' :: r => (-1, r)
    | _ => (1, l)
  let ds := p.2.takeWhile isDigitPy
  if ds.isEmpty then none
  else if (p.2.dropWhile isDigitPy).isEmpty then some (p.1 * (digitsVal ds : Int))
  else none

/-- Modelled Python `float(str)` on the decimal-literal fragment: optional
sign, digits and/or a fractional part, optional exponent; the whole string
must be consumed.  `none` models the `ValueError` branch.  Special forms
Python also accepts (`inf`, `nan`, underscore digit separators, surrounding
whitespace) are outside the modelled fragment; the drivers always strip the
string first. -/
def parseFloat (l : List Char) : Option Frac :=
  let p : Int × List Char :=
    match l with
    | '+' :: r => (1, r)
    | '-' :: r => (-1, r)
    | _ => (1, l)
  let ip := p.2.takeWhile isDigitPy
  let r1 := p.2.dropWhile isDigitPy
  let q : List Char × List Char :=
    match r1 with
    | '.' :: rr => (rr.takeWhile isDigitPy, rr.dropWhile isDigitPy)
    | _ => ([], r1)
  if ip.isEmpty && q.1.isEmpty then none
  else
    let mant : Frac :=
      ⟨p.1 * ((digitsVal ip : Int) * (10 : Int) ^ q.1.length + (digitsVal q.1 : Int)),
        (10 : Int) ^ q.1.length⟩
    match q.2 with
    | [] => some mant
    | 'e' :: re =>
      match parseExpPart re with
      | none => none
      | some e =>
        if 0 ≤ e then some ⟨mant.num * (10 : Int) ^ e.toNat, mant.den⟩
        else some ⟨mant.num, mant.den * (10 : Int) ^ (-e).toNat⟩
    | 'E' :: re =>
      match parseExpPart re with
      | none => none
      | some e =>
        if 0 ≤ e then some ⟨mant.num * (10 : Int) ^ e.toNat, mant.den⟩
        else some ⟨mant.num, mant.den * (10 : Int) ^ (-e).toNat⟩
    | _ => none

/-- A text line. -/
abbrev Line := List Char

/-- Configuration of `clean_parallel`, with the source's default values
`min_score=1.1, max_words=80, max_ratio=3.0, dedup=False`. -/
structure ParallelCfg where
  min_score : Frac := ⟨11, 10⟩
  max_words : Nat := 80
  max_ratio : Frac := ⟨3, 1⟩
  dedup : Bool := false

/-- Mutable state of one `clean_parallel` run: the `kept`/`dropped` counters,
the optional dedup set (`seen = set() if dedup else None`), the two output
streams, and the per-helper `pairs` counter. -/
structure ParState where
  kept : Nat := 0
  dropped : Nat := 0
  seen : Option (List (Line × Line)) := none
  outEn : List Line := []
  outSw : List Line := []
  pairs : Nat := 0
deriving DecidableEq

/-- The `dropped += 1; continue` path of a loop body (the `pairs` counter was
already incremented at the top of the body). -/
def dropUpd (st : ParState) : ParState :=
  { st with pairs := st.pairs + 1, dropped := st.dropped + 1 }

/-- The membership test `key in seen` (`False` when `seen is None`). -/
def seenDup (seen : Option (List (Line × Line))) (en sw : Line) : Bool :=
  match seen with
  | none => false
  | some s => s.contains (en, sw)

/-- The insertion `seen.add(key)` (no-op when `seen is None`). -/
def seenAdd (seen : Option (List (Line × Line))) (en sw : Line) :
    Option (List (Line × Line)) :=
  match seen with
  | none => none
  | some s => some ((en, sw) :: s)

/-- The keep path of `helper_no_score`: record the key if dedup is on, write
both lines in lockstep, bump `kept`. -/
def keepUpd (st : ParState) (en sw : Line) : ParState :=
  { st with pairs := st.pairs + 1, kept := st.kept + 1,
            seen := seenAdd st.seen en sw,
            outEn := st.outEn ++ [en], outSw := st.outSw ++ [sw] }

/-- The keep path of `helper_with_score`: the source writes and bumps `kept`
without consulting or updating the dedup set (its loop body contains no
dedup code at all, although `seen` is in scope via `nonlocal`). -/
def keepUpdNoSeen (st : ParState) (en sw : Line) : ParState :=
  { st with pairs := st.pairs + 1, kept := st.kept + 1,
            outEn := st.outEn ++ [en], outSw := st.outSw ++ [sw] }

/-- Word-count ratio `max(len(en_w), len(sw_w)) / max(1, min(len(en_w),
len(sw_w)))` as a rational. -/
def lenRatio (enW swW : Nat) : Frac :=
  ⟨(max enW swW : Nat), (max 1 (min enW swW) : Nat)⟩

/-- One iteration of the `helper_no_score` loop body over a raw
(source, target) record. -/
def stepNoScore (cfg : ParallelCfg) (st : ParState) (r : Line × Line) : ParState :=
  let en := normalizeLine r.1
  let sw := normalizeLine r.2
  if bad_line en || bad_line sw then dropUpd st
  else
    let enW := pySplit en
    let swW := pySplit sw
    if enW.length > cfg.max_words || swW.length > cfg.max_words then dropUpd st
    else if fracLt cfg.max_ratio (lenRatio enW.length swW.length) then dropUpd st
    else if seenDup st.seen en sw then dropUpd st
    else keepUpd st en sw

/-- One iteration of the `helper_with_score` loop body over a raw
(source, target, score) record.  The score gate runs before anything else;
the loop body performs no dedup. -/
def stepWithScore (cfg : ParallelCfg) (st : ParState) (r : Line × Line × Line) :
    ParState :=
  match parseFloat (pyStrip r.2.2) with
  | none => dropUpd st
  | some score =>
    if fracLt score cfg.min_score then dropUpd st
    else
      let en := normalizeLine r.1
      let sw := normalizeLine r.2.1
      if bad_line en || bad_line sw then dropUpd st
      else
        let enW := pySplit en
        let swW := pySplit sw
        if enW.length > cfg.max_words || swW.length > cfg.max_words then dropUpd st
        else if fracLt cfg.max_ratio (lenRatio enW.length swW.length) then dropUpd st
        else keepUpdNoSeen st en sw

/-- The `for en_raw, sw_raw in zip(fe, fs)` loop of `helper_no_score`. -/
def runNoScore (cfg : ParallelCfg) (st : ParState) : List (Line × Line) → ParState
  | [] => st
  | r :: rest => runNoScore cfg (stepNoScore cfg st r) rest

/-- The `for en_raw, sw_raw, score_raw in zip(fe, fs, fscore)` loop of
`helper_with_score`. -/
def runWithScore (cfg : ParallelCfg) (st : ParState) :
    List (Line × Line × Line) → ParState
  | [] => st
  | r :: rest => runWithScore cfg (stepWithScore cfg st r) rest

/-- Fresh state created at the top of `clean_parallel`
(`kept = dropped = 0; seen = set() if dedup else None`). -/
def initPar (dedup : Bool) : ParState :=
  { seen := if dedup then some [] else none }

/-- Source `helper_no_score`: zip the two line streams positionally (the zip
stops at the shorter stream) and fold the loop body. -/
def helper_no_score (cfg : ParallelCfg) (ens sws : List Line) : ParState :=
  runNoScore cfg (initPar cfg.dedup) (ens.zip sws)

/-- Source `helper_with_score`: zip the three line streams positionally and
fold the loop body. -/
def helper_with_score (cfg : ParallelCfg) (ens sws scores : List Line) : ParState :=
  runWithScore cfg (initPar cfg.dedup) (ens.zip (sws.zip scores))

/-- Source `clean_parallel`: dispatch on `score_path is None`.  Files are
modelled by their lists of decoded lines; directory creation and the progress
prints are I/O with no effect on the computed state. -/
def clean_parallel (cfg : ParallelCfg) (ens sws : List Line)
    (scores : Option (List Line)) : ParState :=
  match scores with
  | none => helper_no_score cfg ens sws
  | some sc => helper_with_score cfg ens sws sc

/-- The spam-punctuation class of `LEADING_PUNCT_SPAM`. -/
def isSpamPunct (c : Char) : Bool :=
  ['!', '?', '.', ';', ',', ':', '\'', '"', '*', '_', '~', '-'].contains c

/-- Source `LEADING_PUNCT_SPAM.search(s)`: the anchored pattern
`^\s*[!?.;,:'"*_~\-]\x7b2,\x7d` matches, i.e. after leading whitespace the
line starts with two or more spam-punctuation characters. -/
def leadingPunctSpam (l : List Char) : Bool :=
  2 ≤ ((l.dropWhile pySpace).takeWhile isSpamPunct).length

/-- A `TEMPLATE_ARTIFACTS` alternative starting at this position: `$` followed
by a digit (the regex `\$\d+` needs at least one digit), a doubled opening or
closing brace, or a doubled `[` or `]`. -/
def templateAt : List Char → Bool
  | '$' :: c :: _ => isDigitPy c
  | '\x7b' :: '\x7b' :: _ => true
  | '\x7d' :: '\x7d' :: _ => true
  | '[' :: '[' :: _ => true
  | ']' :: ']' :: _ => true
  | _ => false

/-- Source `TEMPLATE_ARTIFACTS.search(s)`. -/
def templateArtifacts (l : List Char) : Bool :=
  l.tails.any templateAt

/-- A `REPEATED_PUNCT` match `([!?.])\1\x7b3,\x7d` starting at this position:
one of `!?.` repeated at least four times. -/
def repeatedPunctAt : List Char → Bool
  | a :: b :: c :: d :: _ =>
    (a = '!' || a = '?' || a = '.') && b = a && c = a && d = a
  | _ => false

/-- Source `REPEATED_PUNCT.search(s)`. -/
def repeatedPunct (l : List Char) : Bool :=
  l.tails.any repeatedPunctAt

/-- The fixed standard-punctuation set of the weird-character count. -/
def isStdPunct (c : Char) : Bool :=
  ['.', ',', '?', '!', ':', ';', '\'', '"', '(', ')', '-'].contains c

/-- Source `noisy_mono_line(s)`: spam formatting, template artifacts,
repeated punctuation, low letter density (`letters/total < 0.6`) or high
weird-character density (`weird/total > 0.2`).  The two float density
comparisons are modelled exactly as rationals (`5*letters < 3*total` and
`5*weird > total`); double rounding at the threshold only differs for line
lengths far beyond 2^50. -/
def noisy_mono_line (s : List Char) : Bool :=
  if leadingPunctSpam s then true
  else if templateArtifacts s then true
  else if repeatedPunct s then true
  else
    let letters := (s.filter isAlphaPy).length
    let total := s.length
    if total > 0 && 5 * letters < 3 * total then true
    else
      let weird := (s.filter (fun c =>
        !(isAlnumPy c || pySpace c || isStdPunct c))).length
      if total > 0 && 5 * weird > total then true
      else false

/-- Mutable state of one `clean_mono_gz` run. -/
structure MonoState where
  kept : Nat := 0
  dropped : Nat := 0
  seen : Option (List Line) := none
  out : List Line := []
  processed : Nat := 0
deriving DecidableEq

/-- The `dropped += 1; continue` path of the monolingual loop body. -/
def monoDrop (st : MonoState) : MonoState :=
  { st with processed := st.processed + 1, dropped := st.dropped + 1 }

/-- One iteration of the `clean_mono_gz` loop body over a raw line. -/
def stepMono (max_words : Nat) (st : MonoState) (line : Line) : MonoState :=
  let s := normalizeLine line
  if bad_line s then monoDrop st
  else if noisy_mono_line s then monoDrop st
  else if (pySplit s).length > max_words then monoDrop st
  else if (match st.seen with | none => false | some sn => sn.contains s) then
    monoDrop st
  else
    { st with processed := st.processed + 1, kept := st.kept + 1,
              seen := match st.seen with | none => none | some sn => some (s :: sn),
              out := st.out ++ [s] }

/-- The line loop of `clean_mono_gz`. -/
def runMono (max_words : Nat) (st : MonoState) : List Line → MonoState
  | [] => st
  | line :: rest => runMono max_words (stepMono max_words st line) rest

/-- Source `clean_mono_gz(gz_path, out_path, max_words=80, dedup=False)`:
the gzip stream is modelled by its list of decoded lines. -/
def clean_mono_gz (lines : List Line) (max_words : Nat := 80)
    (dedup : Bool := false) : MonoState :=
  runMono max_words { seen := if dedup then some [] else none } lines

/-- Keep/drop outcome of the pair filter. -/
inductive Verdict where
  | keep
  | drop
deriving DecidableEq

/-- Modelled from the spec's pair-filter contract, no-score variant: decide
keep/drop in the fixed precedence order normalization, is-malformed, word
count, length ratio, dedup, keep. -/
def specVerdictNoScore (cfg : ParallelCfg) (seen : Option (List (Line × Line)))
    (enRaw swRaw : Line) : Verdict :=
  let en := normalizeLine enRaw
  let sw := normalizeLine swRaw
  if bad_line en || bad_line sw then .drop
  else if (pySplit en).length > cfg.max_words || (pySplit sw).length > cfg.max_words then .drop
  else if fracLt cfg.max_ratio (lenRatio (pySplit en).length (pySplit sw).length) then .drop
  else if seenDup seen en sw then .drop
  else .keep

/-- Modelled from the spec's pair-filter contract as amended, with-score
variant: score parse, score threshold, then the same order, but with no dedup
step (the source's score path performs no deduplication). -/
def specVerdictWithScore (cfg : ParallelCfg) (scRaw enRaw swRaw : Line) : Verdict :=
  match parseFloat (pyStrip scRaw) with
  | none => .drop
  | some score =>
    if fracLt score cfg.min_score then .drop
    else
      let en := normalizeLine enRaw
      let sw := normalizeLine swRaw
      if bad_line en || bad_line sw then .drop
      else if (pySplit en).length > cfg.max_words || (pySplit sw).length > cfg.max_words then .drop
      else if fracLt cfg.max_ratio (lenRatio (pySplit en).length (pySplit sw).length) then .drop
      else .keep

/-- Modelled from the claim as stated (C3), with-score variant: the same
decision procedure but with a dedup step between the length-ratio check and
keep, updating the seen-set on keep. -/
def claimStepWithScore (cfg : ParallelCfg) (st : ParState) (r : Line × Line × Line) :
    ParState :=
  match parseFloat (pyStrip r.2.2) with
  | none => dropUpd st
  | some score =>
    if fracLt score cfg.min_score then dropUpd st
    else
      let en := normalizeLine r.1
      let sw := normalizeLine r.2.1
      if bad_line en || bad_line sw then dropUpd st
      else if (pySplit en).length > cfg.max_words || (pySplit sw).length > cfg.max_words then dropUpd st
      else if fracLt cfg.max_ratio (lenRatio (pySplit en).length (pySplit sw).length) then dropUpd st
      else if seenDup st.seen en sw then dropUpd st
      else keepUpd st en sw

/-- Loop folding the claimed with-score decision procedure of C3. -/
def claimRunWithScore (cfg : ParallelCfg) (st : ParState) :
    List (Line × Line × Line) → ParState
  | [] => st
  | r :: rest => claimRunWithScore cfg (claimStepWithScore cfg st r) rest

/-- Characters that survive normalization unchanged on a second pass:
no zero-width, bracket or control characters, lowercase-fixed, and any
whitespace is exactly the plain space. -/
def canonChar (c : Char) : Bool :=
  !(isZeroWidth c) && !(isBracketChar c) && !(isCtrlChar c) &&
    (pyLower c == c) && (!(pySpace c) || (c == ' '))

/-- No two adjacent whitespace characters. -/
def noDouble : List Char → Bool
  | [] => true
  | [_] => true
  | a :: b :: r => !(pySpace a && pySpace b) && noDouble (b :: r)

/-- The first character, if any, is not whitespace. -/
def headOk : List Char → Bool
  | [] => true
  | c :: _ => !(pySpace c)

/-- Characters that cannot be touched by the substitutions of a second
normalization pass: no zero-width, bracket or control character, and any
whitespace is already the plain space. -/
def okChar (c : Char) : Bool :=
  !(isZeroWidth c) && !(isBracketChar c) && !(isCtrlChar c) &&
    (!(pySpace c) || (c == ' '))

/-- Every whitespace character in the list is the plain space. -/
def spacesBlank (l : List Char) : Bool :=
  l.all (fun c => !(pySpace c) || (c == ' '))

/-- What C10 asserts of every written line: it passed `bad_line`, hence is
nonempty, free of the replacement character, free of URL-ish and HTML-ish
matches, and contains an alphabetic character. -/
def cleanOutput (x : Line) : Prop :=
  bad_line x = false ∧ x ≠ [] ∧ replChar ∉ x ∧ urlish x = false ∧
    htmlish x = false ∧ x.any isAlphaPy = true

theorem toNat_ofNat_small {n : Nat} (h : n < 55296) : (Char.ofNat n).toNat = n := by
  simp [Char.ofNat, Nat.isValidChar, h, Char.ofNatAux, Char.toNat, UInt32.toNat,
    BitVec.toNat_ofNat]

theorem char_toNat_inj {c d : Char} (h : c.toNat = d.toNat) : c = d := by
  apply Char.ext
  exact UInt32.ext h

theorem pySpace_toNat {c : Char} :
    pySpace c = true ↔ c.toNat ∈ [0x9, 0xA, 0xB, 0xC, 0xD, 0x1C, 0x1D, 0x1E, 0x1F,
      0x20, 0x85, 0xA0, 0x1680, 0x2000, 0x2001, 0x2002, 0x2003, 0x2004, 0x2005,
      0x2006, 0x2007, 0x2008, 0x2009, 0x200A, 0x2028, 0x2029, 0x202F, 0x205F, 0x3000] := by
  simp [pySpace]

theorem pyLower_toNat (c : Char) :
    (pyLower c).toNat = if 65 ≤ c.toNat ∧ c.toNat ≤ 90 then c.toNat + 32 else c.toNat := by
  unfold pyLower
  split
  · next h => exact toNat_ofNat_small (by omega)
  · rfl

theorem pySpace_pyLower (c : Char) : pySpace (pyLower c) = pySpace c := by
  unfold pyLower
  split
  · next h =>
    have h1 : pySpace (Char.ofNat (c.toNat + 32)) = false := by
      rw [← Bool.not_eq_true]
      intro hsp
      have := pySpace_toNat.mp hsp
      rw [toNat_ofNat_small (by omega)] at this
      simp at this
      omega
    have h2 : pySpace c = false := by
      rw [← Bool.not_eq_true]
      intro hsp
      have := pySpace_toNat.mp hsp
      simp at this
      omega
    rw [h1, h2]
  · rfl

theorem pyLower_idem (c : Char) : pyLower (pyLower c) = pyLower c := by
  unfold pyLower
  split
  · next h =>
    rw [if_neg]
    rw [toNat_ofNat_small (by omega)]
    omega
  · rfl

theorem isBracketChar_toNat {c : Char} :
    isBracketChar c = true ↔ c.toNat ∈ [91, 93, 40, 41, 123, 125] := by
  constructor
  · intro h
    simp only [isBracketChar, List.contains_eq_any_beq, List.any_eq_true, beq_iff_eq] at h
    obtain ⟨d, hd, rfl⟩ := h
    fin_cases hd <;> simp
  · intro h
    simp only [List.mem_cons, List.not_mem_nil, or_false] at h
    simp only [isBracketChar, List.contains_eq_any_beq, List.any_eq_true, beq_iff_eq]
    rcases h with h | h | h | h | h | h
    · exact ⟨'[', by simp, char_toNat_inj (by rw [h]; rfl)⟩
    · exact ⟨']', by simp, char_toNat_inj (by rw [h]; rfl)⟩
    · exact ⟨'(', by simp, char_toNat_inj (by rw [h]; rfl)⟩
    · exact ⟨')', by simp, char_toNat_inj (by rw [h]; rfl)⟩
    · exact ⟨'\x7b', by simp, char_toNat_inj (by rw [h]; rfl)⟩
    · exact ⟨'\x7d', by simp, char_toNat_inj (by rw [h]; rfl)⟩

theorem isZeroWidth_toNat {c : Char} :
    isZeroWidth c = true ↔ c.toNat ∈ [0xFEFF, 0x200B, 0x200C, 0x200D, 0x2060] := by
  simp [isZeroWidth]

theorem canonChar_pyLower {d : Char} (h : okChar d = true) :
    canonChar (pyLower d) = true := by
  simp only [okChar, Bool.and_eq_true, Bool.not_eq_true', Bool.or_eq_true,
    Bool.not_eq_true, beq_iff_eq] at h
  obtain ⟨⟨⟨hzw, hbr⟩, hct⟩, hsp⟩ := h
  by_cases hup : 65 ≤ d.toNat ∧ d.toNat ≤ 90
  · have hval : (pyLower d).toNat = d.toNat + 32 := by
      rw [pyLower_toNat, if_pos hup]
    simp only [canonChar, Bool.and_eq_true, Bool.not_eq_true', Bool.or_eq_true,
      Bool.not_eq_true, beq_iff_eq]
    refine ⟨⟨⟨⟨?_, ?_⟩, ?_⟩, ?_⟩, ?_⟩
    · rw [← Bool.not_eq_true]
      intro hz
      have := isZeroWidth_toNat.mp hz
      rw [hval] at this
      simp at this
      omega
    · rw [← Bool.not_eq_true]
      intro hb
      have := isBracketChar_toNat.mp hb
      rw [hval] at this
      simp at this
      omega
    · rw [← Bool.not_eq_true]
      intro hcc
      simp only [isCtrlChar, decide_eq_true_eq] at hcc
      omega
    · exact pyLower_idem d
    · left
      rw [← Bool.not_eq_true]
      intro hs
      have := pySpace_toNat.mp hs
      rw [hval] at this
      simp at this
      omega
  · have hfix : pyLower d = d := by unfold pyLower; rw [if_neg hup]
    rw [hfix]
    simp only [canonChar, Bool.and_eq_true, Bool.not_eq_true', Bool.or_eq_true,
      Bool.not_eq_true, beq_iff_eq]
    refine ⟨⟨⟨⟨hzw, hbr⟩, hct⟩, hfix⟩, ?_⟩
    rcases hsp with hs | hs
    · exact Or.inl hs
    · exact Or.inr hs

theorem mem_collapseAux {c : Char} :
    ∀ (b : Bool) (l : List Char), c ∈ collapseAux b l →
      c = ' ' ∨ (c ∈ l ∧ pySpace c = false) := by
  intro b l
  induction l generalizing b with
  | nil => intro h; simp [collapseAux] at h
  | cons d r ih =>
    intro h
    simp only [collapseAux] at h
    split at h
    · split at h
      · rcases ih true h with h' | ⟨hm, hs⟩
        · exact Or.inl h'
        · exact Or.inr ⟨List.mem_cons_of_mem d hm, hs⟩
      · rcases List.mem_cons.mp h with rfl | h'
        · exact Or.inl rfl
        · rcases ih true h' with h'' | ⟨hm, hs⟩
          · exact Or.inl h''
          · exact Or.inr ⟨List.mem_cons_of_mem d hm, hs⟩
    · next hd =>
      rcases List.mem_cons.mp h with rfl | h'
      · exact Or.inr ⟨List.mem_cons_self c r, by simpa using hd⟩
      · rcases ih false h' with h'' | ⟨hm, hs⟩
        · exact Or.inl h''
        · exact Or.inr ⟨List.mem_cons_of_mem d hm, hs⟩

theorem collapseAux_noDouble :
    ∀ (l : List Char), (∀ b, noDouble (collapseAux b l) = true) ∧
      headOk (collapseAux true l) = true := by
  intro l
  induction l with
  | nil => exact ⟨fun b => rfl, rfl⟩
  | cons c r ih =>
    by_cases hc : pySpace c = true
    · constructor
      · intro b
        cases b
        · show noDouble (collapseAux false (c :: r)) = true
          simp only [collapseAux, if_pos hc, ite_true]
          cases hX : collapseAux true r with
          | nil => rfl
          | cons d X' =>
            have hd : pySpace d = false := by
              have := ih.2
              rw [hX] at this
              simpa [headOk] using this
            have hnd : noDouble (d :: X') = true := by
              have := ih.1 true
              rwa [hX] at this
            simp [noDouble, hd, hnd]
        · show noDouble (collapseAux true (c :: r)) = true
          simp only [collapseAux, if_pos hc, ite_true]
          exact ih.1 true
      · show headOk (collapseAux true (c :: r)) = true
        simp only [collapseAux, if_pos hc, ite_true]
        exact ih.2
    · have hc' : pySpace c = false := by simpa using hc
      constructor
      · intro b
        show noDouble (collapseAux b (c :: r)) = true
        simp only [collapseAux, hc', Bool.false_eq_true, ite_false, if_neg]
        cases hY : collapseAux false r with
        | nil => rfl
        | cons d Y' =>
          have hnd : noDouble (d :: Y') = true := by
            have := ih.1 false
            rwa [hY] at this
          simp [noDouble, hc', hnd]
      · show headOk (collapseAux true (c :: r)) = true
        simp only [collapseAux, hc', Bool.false_eq_true, ite_false, if_neg]
        simp [headOk, hc']

theorem noDouble_cons_elim {a : Char} {l : List Char} (h : noDouble (a :: l) = true) :
    noDouble l = true := by
  cases l with
  | nil => rfl
  | cons b r =>
    simp only [noDouble, Bool.and_eq_true] at h
    exact h.2

theorem noDouble_append_elim :
    ∀ (x y : List Char), noDouble (x ++ y) = true →
      noDouble x = true ∧ noDouble y = true := by
  intro x
  induction x with
  | nil => exact fun y h => ⟨rfl, h⟩
  | cons a x' ih =>
    intro y h
    have h' : noDouble (x' ++ y) = true := noDouble_cons_elim (by simpa using h)
    rcases ih y h' with ⟨h1, h2⟩
    refine ⟨?_, h2⟩
    cases x' with
    | nil => rfl
    | cons b x'' =>
      simp only [List.cons_append, noDouble, Bool.and_eq_true] at h ⊢
      exact ⟨h.1, h1⟩

theorem noDouble_infixOf {m l : List Char} (h : m <:+: l) (hl : noDouble l = true) :
    noDouble m = true := by
  rcases h with ⟨a, b, rfl⟩
  rcases noDouble_append_elim a (m ++ b) (by rwa [← List.append_assoc]) with ⟨-, h2⟩
  exact (noDouble_append_elim m b h2).1

theorem headOk_dropWhile (l : List Char) : headOk (l.dropWhile pySpace) = true := by
  induction l with
  | nil => rfl
  | cons c r ih =>
    by_cases hc : pySpace c = true
    · rw [List.dropWhile_cons_of_pos hc]
      exact ih
    · rw [List.dropWhile_cons_of_neg (by simpa using hc)]
      simp only [headOk, Bool.not_eq_true']
      simpa using hc

theorem headOk_of_isPre {v X : List Char} (h : v <+: X) (hX : headOk X = true) :
    headOk v = true := by
  cases v with
  | nil => rfl
  | cons c cs =>
    rcases h with ⟨r, hr⟩
    rw [← hr] at hX
    simpa [headOk] using hX

theorem pyStrip_headOk (l : List Char) : headOk (pyStrip l) = true := by
  unfold pyStrip
  have h1 : headOk (l.dropWhile pySpace) = true := headOk_dropWhile l
  have h2 : ((l.dropWhile pySpace).reverse.dropWhile pySpace).reverse <+:
      l.dropWhile pySpace := by
    rw [← List.reverse_suffix]
    simpa using List.dropWhile_suffix pySpace
  exact headOk_of_isPre h2 h1

theorem pyStrip_reverse_headOk (l : List Char) : headOk (pyStrip l).reverse = true := by
  unfold pyStrip
  rw [List.reverse_reverse]
  exact headOk_dropWhile _

theorem pyStrip_infixOf (l : List Char) : pyStrip l <:+: l := by
  unfold pyStrip
  have h2 : ((l.dropWhile pySpace).reverse.dropWhile pySpace).reverse <+:
      l.dropWhile pySpace := by
    rw [← List.reverse_suffix]
    simpa using List.dropWhile_suffix pySpace
  exact h2.isInfix.trans (List.dropWhile_suffix pySpace).isInfix

theorem dropWhile_eq_self_of_headOk {l : List Char} (h : headOk l = true) :
    l.dropWhile pySpace = l := by
  cases l with
  | nil => rfl
  | cons c r =>
    simp only [headOk, Bool.not_eq_true'] at h
    exact List.dropWhile_cons_of_neg (by simp [h])

theorem pyStrip_eq_self {l : List Char} (h1 : headOk l = true)
    (h2 : headOk l.reverse = true) : pyStrip l = l := by
  unfold pyStrip
  rw [dropWhile_eq_self_of_headOk h1, dropWhile_eq_self_of_headOk h2,
    List.reverse_reverse]

theorem collapse_fixed :
    ∀ (l : List Char), spacesBlank l = true → noDouble l = true →
      collapseAux false l = l ∧ (headOk l = true → collapseAux true l = l) := by
  intro l
  induction l with
  | nil => exact fun _ _ => ⟨rfl, fun _ => rfl⟩
  | cons c r ih =>
    intro hsb hnd
    have hsb' : spacesBlank r = true := by
      simp only [spacesBlank, List.all_cons, Bool.and_eq_true] at hsb
      exact hsb.2
    have hnd' : noDouble r = true := noDouble_cons_elim hnd
    rcases ih hsb' hnd' with ⟨ih1, ih2⟩
    by_cases hc : pySpace c = true
    · have hcsp : c = ' ' := by
        simp only [spacesBlank, List.all_cons, Bool.and_eq_true, Bool.or_eq_true,
          Bool.not_eq_true', beq_iff_eq] at hsb
        rcases hsb.1 with h | h
        · rw [h] at hc; exact absurd hc (by simp)
        · exact h
      have hheadr : headOk r = true := by
        cases r with
        | nil => rfl
        | cons d r' =>
          simp only [noDouble, Bool.and_eq_true, Bool.not_eq_true, Bool.and_eq_true] at hnd
          have := hnd.1
          simp only [headOk]
          cases hd : pySpace d
          · rfl
          · rw [hc, hd] at this; simp at this
      constructor
      · simp only [collapseAux, if_pos hc, ite_true]
        rw [ih2 hheadr, hcsp]
        simp
      · intro hh
        simp only [headOk, Bool.not_eq_true'] at hh
        rw [hh] at hc
        exact absurd hc (by simp)
    · have hc' : pySpace c = false := by simpa using hc
      constructor
      · simp only [collapseAux, hc', Bool.false_eq_true, ite_false]
        rw [ih1]
      · intro _
        simp only [collapseAux, hc', Bool.false_eq_true, ite_false]
        rw [ih1]

theorem map_eq_self_of_fixed {f : Char → Char} :
    ∀ {l : List Char}, (∀ c ∈ l, f c = c) → l.map f = l := by
  intro l
  induction l with
  | nil => exact fun _ => rfl
  | cons c r ih =>
    intro h
    simp only [List.map_cons]
    rw [h c (List.mem_cons_self c r), ih (fun d hd => h d (List.mem_cons_of_mem c hd))]

theorem headOk_map_pyLower (l : List Char) : headOk (l.map pyLower) = headOk l := by
  cases l with
  | nil => rfl
  | cons c r => simp [headOk, pySpace_pyLower]

theorem noDouble_map_pyLower : ∀ (l : List Char), noDouble (l.map pyLower) = noDouble l := by
  intro l
  induction l with
  | nil => rfl
  | cons a r ih =>
    cases r with
    | nil => rfl
    | cons b r' =>
      simp only [List.map_cons, noDouble, pySpace_pyLower]
      rw [show (pyLower b :: r'.map pyLower) = (b :: r').map pyLower from rfl, ih]

theorem leadingColonNumSub_suffix (l : List Char) : leadingColonNumSub l <:+ l := by
  unfold leadingColonNumSub matchColonNum
  split
  · next r1 heq =>
    split
    · exact List.suffix_refl l
    · have hr1 : r1 <:+ l := by
        have h1 : ':' :: r1 <:+ l := heq ▸ List.dropWhile_suffix pySpace
        exact (List.suffix_cons ':' r1).trans h1
      simp only [Option.getD_some]
      split
      · next r2a heq2 =>
        split
        · exact ((List.dropWhile_suffix pySpace).trans
            ((heq2 ▸ List.dropWhile_suffix isDigitPy : _ <:+ r1).trans hr1))
        · refine ((List.dropWhile_suffix pySpace).trans ?_)
          refine ((List.dropWhile_suffix isDigitPy).trans ?_)
          refine ((List.suffix_cons '.' r2a).trans ?_)
          exact (heq2 ▸ List.dropWhile_suffix isDigitPy : _ <:+ r1).trans hr1
      · exact ((List.dropWhile_suffix pySpace).trans
          ((List.dropWhile_suffix isDigitPy).trans hr1))
  · exact List.suffix_refl l

theorem annotTail_suffix (b : List Char) : annotTail b <:+ b := by
  unfold annotTail
  have hr2 : b.dropWhile isDigitPy <:+ b := List.dropWhile_suffix isDigitPy
  have htail : (b.dropWhile isDigitPy).tail <:+ b := (List.tail_suffix _).trans hr2
  refine (List.dropWhile_suffix pySpace).trans ?_
  repeat' split
  all_goals
    first
      | exact hr2
      | exact (List.dropWhile_suffix isDigitPy).trans htail
      | exact (List.tail_suffix _).trans hr2
      | exact (List.tail_suffix _).trans ((List.dropWhile_suffix isDigitPy).trans htail)

theorem leadingAnnotSub_suffix (l : List Char) : leadingAnnotSub l <:+ l := by
  unfold leadingAnnotSub matchAnnot
  split
  · exact List.suffix_refl l
  · next c rest heq =>
    have hcr : c :: rest <:+ l := heq ▸ List.dropWhile_suffix pySpace
    have hrest : rest <:+ l := (List.suffix_cons c rest).trans hcr
    split
    · split
      · exact List.suffix_refl l
      · exact (annotTail_suffix rest).trans hrest
    · split
      · exact (annotTail_suffix (c :: rest)).trans hcr
      · exact List.suffix_refl l

theorem canonChar_elim {c : Char} (h : canonChar c = true) :
    isZeroWidth c = false ∧ isBracketChar c = false ∧ isCtrlChar c = false ∧
      pyLower c = c ∧ (pySpace c = false ∨ c = ' ') := by
  simp only [canonChar, Bool.and_eq_true, Bool.not_eq_true', Bool.or_eq_true,
    Bool.not_eq_true, beq_iff_eq] at h
  obtain ⟨⟨⟨⟨h1, h2⟩, h3⟩, h4⟩, h5⟩ := h
  exact ⟨h1, h2, h3, h4, h5⟩

theorem normalizeLine_canon (s : List Char) :
    (∀ c ∈ normalizeLine s, canonChar c = true) ∧
      noDouble (normalizeLine s) = true ∧
      headOk (normalizeLine s) = true ∧
      headOk (normalizeLine s).reverse = true := by
  have ht : normalizeLine s =
      (pyStrip (collapseWs (ctrlSub (bracketSub (leadingAnnotSub (leadingColonNumSub
        (nfkc (zwStrip (pyStrip s))))))))).map pyLower := rfl
  have hzw2 : ∀ c ∈ zwStrip (pyStrip s), isZeroWidth c = false := by
    intro c hc
    have := List.of_mem_filter hc
    simpa using this
  have hsuf4 : leadingColonNumSub (nfkc (zwStrip (pyStrip s))) <:+ zwStrip (pyStrip s) :=
    leadingColonNumSub_suffix _
  have hsuf5 : leadingAnnotSub (leadingColonNumSub (nfkc (zwStrip (pyStrip s)))) <:+
      leadingColonNumSub (nfkc (zwStrip (pyStrip s))) := leadingAnnotSub_suffix _
  have hzw5 : ∀ c ∈ leadingAnnotSub (leadingColonNumSub (nfkc (zwStrip (pyStrip s)))),
      isZeroWidth c = false :=
    fun c hc => hzw2 c (hsuf4.mem (hsuf5.mem hc))
  have h6 : ∀ c ∈ bracketSub (leadingAnnotSub (leadingColonNumSub (nfkc (zwStrip (pyStrip s))))),
      isZeroWidth c = false ∧ isBracketChar c = false := by
    intro c hc
    simp only [bracketSub, List.mem_map] at hc
    obtain ⟨d, hd, rfl⟩ := hc
    by_cases hb : isBracketChar d = true
    · rw [if_pos hb]
      exact ⟨by decide, by decide⟩
    · rw [if_neg hb]
      exact ⟨hzw5 d hd, by simpa using hb⟩
  have h7 : ∀ c ∈ ctrlSub (bracketSub (leadingAnnotSub (leadingColonNumSub
      (nfkc (zwStrip (pyStrip s)))))),
      isZeroWidth c = false ∧ isBracketChar c = false ∧ isCtrlChar c = false := by
    intro c hc
    simp only [ctrlSub, List.mem_map] at hc
    obtain ⟨d, hd, rfl⟩ := hc
    by_cases hb : isCtrlChar d = true
    · rw [if_pos hb]
      exact ⟨by decide, by decide, by decide⟩
    · rw [if_neg hb]
      exact ⟨(h6 d hd).1, (h6 d hd).2, by simpa using hb⟩
  have h8 : ∀ c ∈ collapseWs (ctrlSub (bracketSub (leadingAnnotSub (leadingColonNumSub
      (nfkc (zwStrip (pyStrip s))))))), okChar c = true := by
    intro c hc
    rcases mem_collapseAux false _ hc with rfl | ⟨hm, hs⟩
    · decide
    · obtain ⟨z1, z2, z3⟩ := h7 c hm
      simp [okChar, z1, z2, z3, hs]
  have h9 : ∀ c ∈ pyStrip (collapseWs (ctrlSub (bracketSub (leadingAnnotSub
      (leadingColonNumSub (nfkc (zwStrip (pyStrip s)))))))), okChar c = true :=
    fun c hc => h8 c ((pyStrip_infixOf _).mem hc)
  refine ⟨?_, ?_, ?_, ?_⟩
  · intro c hc
    rw [ht] at hc
    simp only [List.mem_map] at hc
    obtain ⟨d, hd, rfl⟩ := hc
    exact canonChar_pyLower (h9 d hd)
  · rw [ht, noDouble_map_pyLower]
    exact noDouble_infixOf (pyStrip_infixOf _) ((collapseAux_noDouble _).1 false)
  · rw [ht, headOk_map_pyLower]
    exact pyStrip_headOk _
  · rw [ht, ← List.map_reverse, headOk_map_pyLower]
    exact pyStrip_reverse_headOk _

theorem stepNoScore_cases (cfg : ParallelCfg) (st : ParState) (r : Line × Line) :
    stepNoScore cfg st r = dropUpd st ∨
    (stepNoScore cfg st r = keepUpd st (normalizeLine r.1) (normalizeLine r.2) ∧
      bad_line (normalizeLine r.1) = false ∧ bad_line (normalizeLine r.2) = false) := by
  simp only [stepNoScore]
  cases hA : bad_line (normalizeLine r.1) || bad_line (normalizeLine r.2) <;>
    simp only [hA, ite_true, ite_false, Bool.false_eq_true, Bool.true_eq_false]
  · rcases Bool.or_eq_false_iff.mp hA with ⟨h1, h2⟩
    cases hB : decide ((pySplit (normalizeLine r.1)).length > cfg.max_words) ||
        decide ((pySplit (normalizeLine r.2)).length > cfg.max_words) <;>
      simp only [hB, ite_true, ite_false, Bool.false_eq_true, Bool.true_eq_false]
    · cases hC : fracLt cfg.max_ratio
          (lenRatio (pySplit (normalizeLine r.1)).length (pySplit (normalizeLine r.2)).length) <;>
        simp only [hC, ite_true, ite_false, Bool.false_eq_true, Bool.true_eq_false]
      · cases hD : seenDup st.seen (normalizeLine r.1) (normalizeLine r.2) <;>
          simp only [hD, ite_true, ite_false, Bool.false_eq_true, Bool.true_eq_false]
        · simp [h1, h2]
        · simp
      · simp
    · simp
  · simp

theorem stepWithScore_cases (cfg : ParallelCfg) (st : ParState) (r : Line × Line × Line) :
    stepWithScore cfg st r = dropUpd st ∨
    (stepWithScore cfg st r = keepUpdNoSeen st (normalizeLine r.1) (normalizeLine r.2.1) ∧
      bad_line (normalizeLine r.1) = false ∧ bad_line (normalizeLine r.2.1) = false) := by
  simp only [stepWithScore]
  cases hS : parseFloat (pyStrip r.2.2)
  · simp
  case some score =>
    cases hT : fracLt score cfg.min_score <;>
      simp only [hT, ite_true, ite_false, Bool.false_eq_true, Bool.true_eq_false]
    · cases hA : bad_line (normalizeLine r.1) || bad_line (normalizeLine r.2.1) <;>
        simp only [hA, ite_true, ite_false, Bool.false_eq_true, Bool.true_eq_false]
      · rcases Bool.or_eq_false_iff.mp hA with ⟨h1, h2⟩
        cases hB : decide ((pySplit (normalizeLine r.1)).length > cfg.max_words) ||
            decide ((pySplit (normalizeLine r.2.1)).length > cfg.max_words) <;>
          simp only [hB, ite_true, ite_false, Bool.false_eq_true, Bool.true_eq_false]
        · cases hC : fracLt cfg.max_ratio
              (lenRatio (pySplit (normalizeLine r.1)).length (pySplit (normalizeLine r.2.1)).length) <;>
            simp only [hC, ite_true, ite_false, Bool.false_eq_true, Bool.true_eq_false]
          · simp [h1, h2]
          · simp
        · simp
      · simp
    · simp

theorem stepMono_cases (mw : Nat) (st : MonoState) (line : Line) :
    stepMono mw st line = monoDrop st ∨
    (stepMono mw st line =
        { st with processed := st.processed + 1, kept := st.kept + 1,
                  seen := match st.seen with
                          | none => none
                          | some sn => some (normalizeLine line :: sn),
                  out := st.out ++ [normalizeLine line] } ∧
      bad_line (normalizeLine line) = false) := by
  simp only [stepMono]
  cases h1 : bad_line (normalizeLine line) <;>
    simp only [h1, ite_true, ite_false, Bool.false_eq_true, Bool.true_eq_false]
  · cases h2 : noisy_mono_line (normalizeLine line) <;>
      simp only [h2, ite_true, ite_false, Bool.false_eq_true, Bool.true_eq_false]
    · by_cases h3 : (pySplit (normalizeLine line)).length > mw
      · simp [if_pos h3]
      · rw [if_neg h3]
        cases h4 : (match st.seen with
                    | none => false
                    | some sn => sn.contains (normalizeLine line)) <;>
          simp only [h4, ite_true, ite_false, Bool.false_eq_true, Bool.true_eq_false]
        · simp
        · simp
    · simp
  · simp

theorem stepNoScore_pairs (cfg : ParallelCfg) (st : ParState) (r : Line × Line) :
    (stepNoScore cfg st r).pairs = st.pairs + 1 := by
  rcases stepNoScore_cases cfg st r with h | ⟨h, -, -⟩ <;> rw [h] <;> rfl

theorem stepNoScore_counter (cfg : ParallelCfg) (st : ParState) (r : Line × Line) :
    (stepNoScore cfg st r).kept + (stepNoScore cfg st r).dropped =
      st.kept + st.dropped + 1 := by
  rcases stepNoScore_cases cfg st r with h | ⟨h, -, -⟩ <;> rw [h] <;>
    simp [dropUpd, keepUpd] <;> omega

theorem stepWithScore_pairs (cfg : ParallelCfg) (st : ParState) (r : Line × Line × Line) :
    (stepWithScore cfg st r).pairs = st.pairs + 1 := by
  rcases stepWithScore_cases cfg st r with h | ⟨h, -, -⟩ <;> rw [h] <;> rfl

theorem stepWithScore_counter (cfg : ParallelCfg) (st : ParState) (r : Line × Line × Line) :
    (stepWithScore cfg st r).kept + (stepWithScore cfg st r).dropped =
      st.kept + st.dropped + 1 := by
  rcases stepWithScore_cases cfg st r with h | ⟨h, -, -⟩ <;> rw [h] <;>
    simp [dropUpd, keepUpdNoSeen] <;> omega

theorem stepMono_processed (mw : Nat) (st : MonoState) (line : Line) :
    (stepMono mw st line).processed = st.processed + 1 := by
  rcases stepMono_cases mw st line with h | ⟨h, -⟩ <;> rw [h] <;> rfl

theorem stepMono_counter (mw : Nat) (st : MonoState) (line : Line) :
    (stepMono mw st line).kept + (stepMono mw st line).dropped =
      st.kept + st.dropped + 1 := by
  rcases stepMono_cases mw st line with h | ⟨h, -⟩ <;> rw [h] <;>
    simp [monoDrop] <;> omega

theorem runNoScore_pairs (cfg : ParallelCfg) (l : List (Line × Line)) :
    ∀ st, (runNoScore cfg st l).pairs = st.pairs + l.length := by
  induction l with
  | nil => intro st; simp [runNoScore]
  | cons r rest ih =>
    intro st
    simp only [runNoScore, ih, stepNoScore_pairs, List.length_cons]
    omega

theorem runNoScore_counter (cfg : ParallelCfg) (l : List (Line × Line)) :
    ∀ st, (runNoScore cfg st l).kept + (runNoScore cfg st l).dropped =
      st.kept + st.dropped + l.length := by
  induction l with
  | nil => intro st; simp [runNoScore]
  | cons r rest ih =>
    intro st
    have h := stepNoScore_counter cfg st r
    simp only [runNoScore, List.length_cons]
    rw [ih]
    omega

theorem runWithScore_pairs (cfg : ParallelCfg) (l : List (Line × Line × Line)) :
    ∀ st, (runWithScore cfg st l).pairs = st.pairs + l.length := by
  induction l with
  | nil => intro st; simp [runWithScore]
  | cons r rest ih =>
    intro st
    simp only [runWithScore, ih, stepWithScore_pairs, List.length_cons]
    omega

theorem runWithScore_counter (cfg : ParallelCfg) (l : List (Line × Line × Line)) :
    ∀ st, (runWithScore cfg st l).kept + (runWithScore cfg st l).dropped =
      st.kept + st.dropped + l.length := by
  induction l with
  | nil => intro st; simp [runWithScore]
  | cons r rest ih =>
    intro st
    have h := stepWithScore_counter cfg st r
    simp only [runWithScore, List.length_cons]
    rw [ih]
    omega

theorem runMono_processed (mw : Nat) (l : List Line) :
    ∀ st, (runMono mw st l).processed = st.processed + l.length := by
  induction l with
  | nil => intro st; simp [runMono]
  | cons r rest ih =>
    intro st
    simp only [runMono, ih, stepMono_processed, List.length_cons]
    omega

theorem runMono_counter (mw : Nat) (l : List Line) :
    ∀ st, (runMono mw st l).kept + (runMono mw st l).dropped =
      st.kept + st.dropped + l.length := by
  induction l with
  | nil => intro st; simp [runMono]
  | cons r rest ih =>
    intro st
    have h := stepMono_counter mw st r
    simp only [runMono, List.length_cons]
    rw [ih]
    omega

theorem runNoScore_align (cfg : ParallelCfg) (l : List (Line × Line)) :
    ∀ st, ∃ recs : List (Line × Line), recs.Sublist l ∧
      (runNoScore cfg st l).outEn = st.outEn ++ recs.map (fun r => normalizeLine r.1) ∧
      (runNoScore cfg st l).outSw = st.outSw ++ recs.map (fun r => normalizeLine r.2) := by
  induction l with
  | nil =>
    intro st
    exact ⟨[], List.Sublist.refl [], by simp [runNoScore], by simp [runNoScore]⟩
  | cons r rest ih =>
    intro st
    rcases ih (stepNoScore cfg st r) with ⟨recs, hsub, hEn, hSw⟩
    rcases stepNoScore_cases cfg st r with h | ⟨h, -, -⟩
    · refine ⟨recs, hsub.cons r, ?_, ?_⟩
      · simpa [runNoScore, h, dropUpd] using hEn
      · simpa [runNoScore, h, dropUpd] using hSw
    · refine ⟨r :: recs, hsub.cons₂ r, ?_, ?_⟩
      · rw [show runNoScore cfg st (r :: rest) = runNoScore cfg (stepNoScore cfg st r) rest from rfl,
           hEn, h]
        simp [keepUpd]
      · rw [show runNoScore cfg st (r :: rest) = runNoScore cfg (stepNoScore cfg st r) rest from rfl,
           hSw, h]
        simp [keepUpd]

theorem runWithScore_align (cfg : ParallelCfg) (l : List (Line × Line × Line)) :
    ∀ st, ∃ recs : List (Line × Line × Line), recs.Sublist l ∧
      (runWithScore cfg st l).outEn = st.outEn ++ recs.map (fun r => normalizeLine r.1) ∧
      (runWithScore cfg st l).outSw = st.outSw ++ recs.map (fun r => normalizeLine r.2.1) := by
  induction l with
  | nil =>
    intro st
    exact ⟨[], List.Sublist.refl [], by simp [runWithScore], by simp [runWithScore]⟩
  | cons r rest ih =>
    intro st
    rcases ih (stepWithScore cfg st r) with ⟨recs, hsub, hEn, hSw⟩
    rcases stepWithScore_cases cfg st r with h | ⟨h, -, -⟩
    · refine ⟨recs, hsub.cons r, ?_, ?_⟩
      · simpa [runWithScore, h, dropUpd] using hEn
      · simpa [runWithScore, h, dropUpd] using hSw
    · refine ⟨r :: recs, hsub.cons₂ r, ?_, ?_⟩
      · rw [show runWithScore cfg st (r :: rest) = runWithScore cfg (stepWithScore cfg st r) rest from rfl,
           hEn, h]
        simp [keepUpdNoSeen]
      · rw [show runWithScore cfg st (r :: rest) = runWithScore cfg (stepWithScore cfg st r) rest from rfl,
           hSw, h]
        simp [keepUpdNoSeen]

theorem bad_line_false_elim {s : Line} (h : bad_line s = false) :
    s ≠ [] ∧ replChar ∉ s ∧ urlish s = false ∧ htmlish s = false ∧
      s.any isAlphaPy = true := by
  simp only [bad_line] at h
  by_cases h1 : s.isEmpty = true
  · rw [if_pos h1] at h; exact absurd h (by simp)
  · rw [if_neg h1] at h
    by_cases h2 : s.contains replChar = true
    · rw [if_pos h2] at h; exact absurd h (by simp)
    · rw [if_neg h2] at h
      by_cases h3 : (urlish s || htmlish s) = true
      · rw [if_pos h3] at h; exact absurd h (by simp)
      · rw [if_neg h3] at h
        by_cases h4 : (!(s.any isAlphaPy)) = true
        · rw [if_pos h4] at h; exact absurd h (by simp)
        · have hu : urlish s = false ∧ htmlish s = false := by
            have h3' : (urlish s || htmlish s) = false := by
              cases hb : urlish s || htmlish s
              · rfl
              · exact absurd hb h3
            exact Bool.or_eq_false_iff.mp h3'

          refine ⟨by simpa [List.isEmpty_iff] using h1, by simpa using h2, hu.1, hu.2, ?_⟩
          simpa using h4

theorem cleanOutput_of_bad_line_false {x : Line} (h : bad_line x = false) :
    cleanOutput x :=
  ⟨h, bad_line_false_elim h⟩

theorem runNoScore_out_mem (cfg : ParallelCfg) (l : List (Line × Line)) :
    ∀ st x,
      (x ∈ (runNoScore cfg st l).outEn →
        x ∈ st.outEn ∨ ∃ r ∈ l, x = normalizeLine r.1 ∧ bad_line x = false) ∧
      (x ∈ (runNoScore cfg st l).outSw →
        x ∈ st.outSw ∨ ∃ r ∈ l, x = normalizeLine r.2 ∧ bad_line x = false) := by
  induction l with
  | nil => exact fun st x => ⟨fun hx => Or.inl hx, fun hx => Or.inl hx⟩
  | cons r rest ih =>
    intro st x
    have step1 : runNoScore cfg st (r :: rest) = runNoScore cfg (stepNoScore cfg st r) rest := rfl
    constructor
    · intro hx
      rw [step1] at hx
      rcases (ih (stepNoScore cfg st r) x).1 hx with hmem | ⟨rr, hrr, hxe, hbad⟩
      · rcases stepNoScore_cases cfg st r with h | ⟨h, hb1, hb2⟩
        · rw [h] at hmem; exact Or.inl hmem
        · rw [h] at hmem
          simp only [keepUpd, List.mem_append, List.mem_singleton] at hmem
          rcases hmem with hmem | hmem
          · exact Or.inl hmem
          · refine Or.inr ⟨r, List.mem_cons_self r rest, hmem, ?_⟩
            rw [hmem]; exact hb1
      · exact Or.inr ⟨rr, List.mem_cons_of_mem r hrr, hxe, hbad⟩
    · intro hx
      rw [step1] at hx
      rcases (ih (stepNoScore cfg st r) x).2 hx with hmem | ⟨rr, hrr, hxe, hbad⟩
      · rcases stepNoScore_cases cfg st r with h | ⟨h, hb1, hb2⟩
        · rw [h] at hmem; exact Or.inl hmem
        · rw [h] at hmem
          simp only [keepUpd, List.mem_append, List.mem_singleton] at hmem
          rcases hmem with hmem | hmem
          · exact Or.inl hmem
          · refine Or.inr ⟨r, List.mem_cons_self r rest, hmem, ?_⟩
            rw [hmem]; exact hb2
      · exact Or.inr ⟨rr, List.mem_cons_of_mem r hrr, hxe, hbad⟩

theorem runWithScore_out_mem (cfg : ParallelCfg) (l : List (Line × Line × Line)) :
    ∀ st x,
      (x ∈ (runWithScore cfg st l).outEn →
        x ∈ st.outEn ∨ ∃ r ∈ l, x = normalizeLine r.1 ∧ bad_line x = false) ∧
      (x ∈ (runWithScore cfg st l).outSw →
        x ∈ st.outSw ∨ ∃ r ∈ l, x = normalizeLine r.2.1 ∧ bad_line x = false) := by
  induction l with
  | nil => exact fun st x => ⟨fun hx => Or.inl hx, fun hx => Or.inl hx⟩
  | cons r rest ih =>
    intro st x
    have step1 : runWithScore cfg st (r :: rest) = runWithScore cfg (stepWithScore cfg st r) rest := rfl
    constructor
    · intro hx
      rw [step1] at hx
      rcases (ih (stepWithScore cfg st r) x).1 hx with hmem | ⟨rr, hrr, hxe, hbad⟩
      · rcases stepWithScore_cases cfg st r with h | ⟨h, hb1, hb2⟩
        · rw [h] at hmem; exact Or.inl hmem
        · rw [h] at hmem
          simp only [keepUpdNoSeen, List.mem_append, List.mem_singleton] at hmem
          rcases hmem with hmem | hmem
          · exact Or.inl hmem
          · refine Or.inr ⟨r, List.mem_cons_self r rest, hmem, ?_⟩
            rw [hmem]; exact hb1
      · exact Or.inr ⟨rr, List.mem_cons_of_mem r hrr, hxe, hbad⟩
    · intro hx
      rw [step1] at hx
      rcases (ih (stepWithScore cfg st r) x).2 hx with hmem | ⟨rr, hrr, hxe, hbad⟩
      · rcases stepWithScore_cases cfg st r with h | ⟨h, hb1, hb2⟩
        · rw [h] at hmem; exact Or.inl hmem
        · rw [h] at hmem
          simp only [keepUpdNoSeen, List.mem_append, List.mem_singleton] at hmem
          rcases hmem with hmem | hmem
          · exact Or.inl hmem
          · refine Or.inr ⟨r, List.mem_cons_self r rest, hmem, ?_⟩
            rw [hmem]; exact hb2
      · exact Or.inr ⟨rr, List.mem_cons_of_mem r hrr, hxe, hbad⟩

theorem runMono_out_mem (mw : Nat) (l : List Line) :
    ∀ st x, x ∈ (runMono mw st l).out →
      x ∈ st.out ∨ ∃ raw ∈ l, x = normalizeLine raw ∧ bad_line x = false := by
  induction l with
  | nil => exact fun st x hx => Or.inl hx
  | cons r rest ih =>
    intro st x hx
    have step1 : runMono mw st (r :: rest) = runMono mw (stepMono mw st r) rest := rfl
    rw [step1] at hx
    rcases ih (stepMono mw st r) x hx with hmem | ⟨rr, hrr, hxe, hbad⟩
    · rcases stepMono_cases mw st r with h | ⟨h, hb⟩
      · rw [h] at hmem; exact Or.inl hmem
      · rw [h] at hmem
        simp only [List.mem_append, List.mem_singleton] at hmem
        rcases hmem with hmem | hmem
        · exact Or.inl hmem
        · refine Or.inr ⟨r, List.mem_cons_self r rest, hmem, ?_⟩
          rw [hmem]; exact hb
    · exact Or.inr ⟨rr, List.mem_cons_of_mem r hrr, hxe, hbad⟩

theorem fracLt_iff_toRat {a b : Frac} (ha : 0 < a.den) (hb : 0 < b.den) :
    fracLt a b = true ↔ a.toRat < b.toRat := by
  simp only [fracLt, Frac.toRat, decide_eq_true_eq]
  rw [div_lt_div_iff (by exact_mod_cast ha) (by exact_mod_cast hb)]
  constructor <;> intro h <;> exact_mod_cast h

theorem ratio_gate_general (cfg : ParallelCfg) (st : ParState) (en sw : Line)
    (hseen : st.seen = none)
    (hb1 : bad_line (normalizeLine en) = false)
    (hb2 : bad_line (normalizeLine sw) = false)
    (hw1 : (pySplit (normalizeLine en)).length ≤ cfg.max_words)
    (hw2 : (pySplit (normalizeLine sw)).length ≤ cfg.max_words)
    (hden : 0 < cfg.max_ratio.den) :
    (lenRatio (pySplit (normalizeLine en)).length (pySplit (normalizeLine sw)).length).toRat =
      ((max (pySplit (normalizeLine en)).length (pySplit (normalizeLine sw)).length : Nat) : Rat) /
        ((max 1 (min (pySplit (normalizeLine en)).length
            (pySplit (normalizeLine sw)).length) : Nat) : Rat) ∧
    stepNoScore cfg st (en, sw) =
      if cfg.max_ratio.toRat <
          (lenRatio (pySplit (normalizeLine en)).length
            (pySplit (normalizeLine sw)).length).toRat
      then dropUpd st
      else keepUpd st (normalizeLine en) (normalizeLine sw) := by
  have hlden : 0 < (lenRatio (pySplit (normalizeLine en)).length
      (pySplit (normalizeLine sw)).length).den := by
    simp only [lenRatio]
    exact_mod_cast Nat.lt_of_lt_of_le Nat.one_pos (Nat.le_max_left 1 _)
  constructor
  · show Frac.toRat ⟨((max (pySplit (normalizeLine en)).length (pySplit (normalizeLine sw)).length : Nat) : Int), ((max 1 (min (pySplit (normalizeLine en)).length (pySplit (normalizeLine sw)).length) : Nat) : Int)⟩ = _
    simp only [Frac.toRat]
    push_cast
    ring
  · have hA : (bad_line (normalizeLine en) || bad_line (normalizeLine sw)) = false := by
      rw [hb1, hb2]; rfl
    have hB : (decide ((pySplit (normalizeLine en)).length > cfg.max_words) ||
        decide ((pySplit (normalizeLine sw)).length > cfg.max_words)) = false := by
      simp [Nat.not_lt.mpr hw1, Nat.not_lt.mpr hw2]
    simp only [stepNoScore, hA, hB, ite_false, Bool.false_eq_true, hseen]
    cases hC : fracLt cfg.max_ratio (lenRatio (pySplit (normalizeLine en)).length
        (pySplit (normalizeLine sw)).length)
    · have hnot : ¬(cfg.max_ratio.toRat < (lenRatio (pySplit (normalizeLine en)).length
          (pySplit (normalizeLine sw)).length).toRat) := by
        intro hlt
        exact absurd ((fracLt_iff_toRat hden hlden).mpr hlt) (by simp [hC])
      rw [if_neg hnot]
      simp [seenDup]
    · rw [if_pos ((fracLt_iff_toRat hden hlden).mp hC)]
      simp

/-- Claim C1 (amended): normalization is idempotent for every string whose
normalized form is not further reduced by the two anchored leading-number
substitutions, i.e. whenever `LEADING_COLON_NUM` and `LEADING_ANNOT` leave
`normalize(s)` unchanged, `normalize(normalize(s)) = normalize(s)` (default
`lowercase=True`).  The restriction is forced: a normalized line may itself
begin with a bare number, which a second pass strips (see the
counterexample). -/
theorem normalizeLine_idempotent_of_fixed (s : List Char)
    (hc : leadingColonNumSub (normalizeLine s) = normalizeLine s)
    (ha : leadingAnnotSub (normalizeLine s) = normalizeLine s) :
    normalizeLine (normalizeLine s) = normalizeLine s := by
  obtain ⟨hcanon, hnd, hh, hl⟩ := normalizeLine_canon s
  have hstrip : pyStrip (normalizeLine s) = normalizeLine s := pyStrip_eq_self hh hl
  have hzw : zwStrip (normalizeLine s) = normalizeLine s :=
    List.filter_eq_self.mpr (fun c hcm => by
      simp [(canonChar_elim (hcanon c hcm)).1])
  have hbr : bracketSub (normalizeLine s) = normalizeLine s :=
    map_eq_self_of_fixed (fun c hcm => if_neg (by
      simp [(canonChar_elim (hcanon c hcm)).2.1]))
  have hct : ctrlSub (normalizeLine s) = normalizeLine s :=
    map_eq_self_of_fixed (fun c hcm => if_neg (by
      simp [(canonChar_elim (hcanon c hcm)).2.2.1]))
  have hsb : spacesBlank (normalizeLine s) = true := by
    simp only [spacesBlank, List.all_eq_true]
    intro c hcm
    rcases (canonChar_elim (hcanon c hcm)).2.2.2.2 with h | h
    · simp [h]
    · simp [h]
  have hcol : collapseWs (normalizeLine s) = normalizeLine s :=
    (collapse_fixed (normalizeLine s) hsb hnd).1
  have hlow : (normalizeLine s).map pyLower = normalizeLine s :=
    map_eq_self_of_fixed (fun c hcm => (canonChar_elim (hcanon c hcm)).2.2.2.1)
  calc normalizeLine (normalizeLine s)
      = (pyStrip (collapseWs (ctrlSub (bracketSub (leadingAnnotSub (leadingColonNumSub
          (nfkc (zwStrip (pyStrip (normalizeLine s)))))))))).map pyLower := rfl
    _ = normalizeLine s := by
        have hcol' : collapseWs (normalizeLine s) = normalizeLine s := hcol
        rw [hstrip, hzw, show nfkc (normalizeLine s) = normalizeLine s from rfl,
          hc, ha, hbr, hct, hcol', hstrip, hlow]

/-- Claim C1, counterexample to the claim as stated: `normalize` is not
idempotent.  `normalize("1 2 hello") = "2 hello"` (the leading annotation
regex strips "1 "), and normalizing again strips "2 ", giving "hello". -/
theorem normalizeLine_not_idempotent :
    normalizeLine (normalizeLine (("1 2 hello").data)) ≠
      normalizeLine (("1 2 hello").data) := by
  decide

/-- Witness for the amended claim C1 at the concrete input "Hello, World!",
whose normalized form "hello, world!" matches neither leading-number
pattern. -/
theorem normalizeLine_idempotent_witness :
    leadingColonNumSub (normalizeLine (("Hello, World!").data)) =
        normalizeLine (("Hello, World!").data) ∧
      leadingAnnotSub (normalizeLine (("Hello, World!").data)) =
        normalizeLine (("Hello, World!").data) ∧
      normalizeLine (normalizeLine (("Hello, World!").data)) =
        normalizeLine (("Hello, World!").data) :=
  ⟨by decide, by decide,
    normalizeLine_idempotent_of_fixed (("Hello, World!").data) (by decide) (by decide)⟩

/-- Claim C2 (code bug): in the with-score variant the source never consults
the dedup set (`helper_with_score` declares `nonlocal seen` but its loop body
contains no dedup check), so with dedup enabled an exact duplicate of an
earlier accepted pair is written again: both occurrences of
("good", "bueno") with passing scores are kept and nothing is dropped,
whereas the same run through the no-score variant keeps only the first
occurrence. -/
theorem score_path_ignores_dedup :
    (clean_parallel { dedup := true } [("good".data), ("good".data)]
        [("bueno".data), ("bueno".data)]
        (some [("2.0".data), ("2.0".data)])).kept = 2 ∧
    (clean_parallel { dedup := true } [("good".data), ("good".data)]
        [("bueno".data), ("bueno".data)]
        (some [("2.0".data), ("2.0".data)])).dropped = 0 ∧
    (clean_parallel { dedup := true } [("good".data), ("good".data)]
        [("bueno".data), ("bueno".data)]
        (some [("2.0".data), ("2.0".data)])).outEn = [("good".data), ("good".data)] ∧
    (clean_parallel { dedup := true } [("good".data), ("good".data)]
        [("bueno".data), ("bueno".data)] none).kept = 1 := by
  refine ⟨?_, ?_, ?_, ?_⟩ <;> decide

/-- Claim C3, counterexample to the claim as stated: the claimed decision
procedure (score gate, then normalization, malformed, word count, ratio,
dedup, keep) drops the duplicate ("hello", "hola") pair at its second
occurrence, but the code's with-score helper keeps both occurrences — with
scores present no dedup check runs at any position of the precedence chain. -/
theorem pair_filter_order_counterexample :
    (helper_with_score { dedup := true } [("hello".data), ("hello".data)]
        [("hola".data), ("hola".data)] [("1.5".data), ("1.5".data)]).kept = 2 ∧
    (claimRunWithScore { dedup := true } (initPar true)
        ([("hello".data), ("hello".data)].zip
          ([("hola".data), ("hola".data)].zip [("1.5".data), ("1.5".data)]))).kept = 1 := by
  refine ⟨?_, ?_⟩ <;> decide

/-- Claim C3 (amended): each loop body is extensionally the claimed
first-failing-check decision procedure — score parse then score threshold
(score variant only), then normalization, is-malformed on either line, word
count, length ratio, then dedup in the no-score variant only — followed by
the corresponding bookkeeping update; a failing check yields exactly the
drop update, so no later check can influence the outcome. -/
theorem pair_filter_precedence :
    (∀ (cfg : ParallelCfg) (st : ParState) (r : Line × Line),
      stepNoScore cfg st r =
        match specVerdictNoScore cfg st.seen r.1 r.2 with
        | .drop => dropUpd st
        | .keep => keepUpd st (normalizeLine r.1) (normalizeLine r.2)) ∧
    (∀ (cfg : ParallelCfg) (st : ParState) (r : Line × Line × Line),
      stepWithScore cfg st r =
        match specVerdictWithScore cfg r.2.2 r.1 r.2.1 with
        | .drop => dropUpd st
        | .keep => keepUpdNoSeen st (normalizeLine r.1) (normalizeLine r.2.1)) := by
  constructor
  · intro cfg st r
    simp only [stepNoScore, specVerdictNoScore]
    cases hA : bad_line (normalizeLine r.1) || bad_line (normalizeLine r.2) <;>
      simp only [hA, Bool.true_eq_false, if_true, if_false, ite_true, ite_false, Bool.false_eq_true]
    cases hB : decide ((pySplit (normalizeLine r.1)).length > cfg.max_words) || decide ((pySplit (normalizeLine r.2)).length > cfg.max_words) <;>
      simp only [hB, ite_true, ite_false, Bool.false_eq_true, Bool.true_eq_false]
    cases hC : fracLt cfg.max_ratio (lenRatio (pySplit (normalizeLine r.1)).length (pySplit (normalizeLine r.2)).length) <;>
      simp only [hC, ite_true, ite_false, Bool.false_eq_true, Bool.true_eq_false]
    cases hD : seenDup st.seen (normalizeLine r.1) (normalizeLine r.2) <;>
      simp only [hD, ite_true, ite_false, Bool.false_eq_true, Bool.true_eq_false]
  · intro cfg st r
    simp only [stepWithScore, specVerdictWithScore]
    cases hS : parseFloat (pyStrip r.2.2)
    · rfl
    case some score =>
      simp only []
      cases hT : fracLt score cfg.min_score <;>
        simp only [hT, ite_true, ite_false, Bool.false_eq_true, Bool.true_eq_false]
      cases hA : bad_line (normalizeLine r.1) || bad_line (normalizeLine r.2.1) <;>
        simp only [hA, ite_true, ite_false, Bool.false_eq_true, Bool.true_eq_false]
      cases hB : decide ((pySplit (normalizeLine r.1)).length > cfg.max_words) || decide ((pySplit (normalizeLine r.2.1)).length > cfg.max_words) <;>
        simp only [hB, ite_true, ite_false, Bool.false_eq_true, Bool.true_eq_false]
      cases hC : fracLt cfg.max_ratio (lenRatio (pySplit (normalizeLine r.1)).length (pySplit (normalizeLine r.2.1)).length) <;>
        simp only [hC, ite_true, ite_false, Bool.false_eq_true, Bool.true_eq_false]

/-- Claim C4: with `min_score = 1.1` (the default), the record with score
line "abc" is dropped without aborting the run (the two later records are
still processed), the record with score line "1.1" passes the inclusive gate
and is kept, and the record with score line "0.9" is dropped: over three
otherwise identical clean records the run processes all three pairs, keeps
exactly the "1.1" record and drops the other two. -/
theorem score_gate_boundary_and_recovery :
    (clean_parallel {} [("Hello.".data), ("Hello.".data), ("Hello.".data)]
        [("Hola.".data), ("Hola.".data), ("Hola.".data)]
        (some [("abc".data), ("1.1".data), ("0.9".data)])).pairs = 3 ∧
    (clean_parallel {} [("Hello.".data), ("Hello.".data), ("Hello.".data)]
        [("Hola.".data), ("Hola.".data), ("Hola.".data)]
        (some [("abc".data), ("1.1".data), ("0.9".data)])).kept = 1 ∧
    (clean_parallel {} [("Hello.".data), ("Hello.".data), ("Hello.".data)]
        [("Hola.".data), ("Hola.".data), ("Hola.".data)]
        (some [("abc".data), ("1.1".data), ("0.9".data)])).dropped = 2 ∧
    (clean_parallel {} [("Hello.".data), ("Hello.".data), ("Hello.".data)]
        [("Hola.".data), ("Hola.".data), ("Hola.".data)]
        (some [("abc".data), ("1.1".data), ("0.9".data)])).outEn = [("hello.".data)] ∧
    (stepWithScore {} {} (("Hello.".data), ("Hola.".data), ("0.9".data))).dropped = 1 ∧
    (stepWithScore {} {} (("Hello.".data), ("Hola.".data), ("1.1".data))).kept = 1 ∧
    (stepWithScore {} {} (("Hello.".data), ("Hola.".data), ("abc".data))).dropped = 1 := by
  refine ⟨?_, ?_, ?_, ?_, ?_, ?_, ?_⟩ <;> decide

/-- Claim C6: `bad_line` returns true exactly for the empty string, a line
containing the Unicode replacement character, a line with a URL-like or
HTML-like match, or a line with no alphabetic character; in particular
`bad_line("")`, `bad_line("1234")` and
`bad_line("visit https://x.com now")` are true and
`bad_line("hello world")` is false. -/
theorem bad_line_spec :
    (∀ s : Line, bad_line s = true ↔
      (s = [] ∨ replChar ∈ s ∨ urlish s = true ∨ htmlish s = true ∨
        ∀ c ∈ s, isAlphaPy c = false)) ∧
    bad_line [] = true ∧
    bad_line (("1234").data) = true ∧
    bad_line (("visit https://x.com now").data) = true ∧
    bad_line (("hello world").data) = false := by
  refine ⟨?_, by decide, by decide, by decide, by decide⟩
  intro s
  simp only [bad_line, List.isEmpty_iff, List.any_eq_true]
  by_cases h1 : s = [] <;> simp [h1]
  by_cases h2 : replChar ∈ s <;> simp [h2, List.elem_iff]
  by_cases h3 : urlish s = true <;> simp [h3]

/-- Claim C7: `clean_parallel` processes exactly as many records as the
shortest input stream has lines, in both variants (the positional zip stops
at the shortest stream, and the model is total, so no error is raised); in
particular a 5-line source with a 3-line target processes exactly 3
records. -/
theorem truncation_min_length :
    (∀ (cfg : ParallelCfg) (ens sws : List Line),
      (clean_parallel cfg ens sws none).pairs = min ens.length sws.length) ∧
    (∀ (cfg : ParallelCfg) (ens sws scores : List Line),
      (clean_parallel cfg ens sws (some scores)).pairs =
        min ens.length (min sws.length scores.length)) ∧
    (clean_parallel {} [("s one".data), ("s two".data), ("s three".data),
        ("s four".data), ("s five".data)]
      [("t one".data), ("t two".data), ("t three".data)] none).pairs = 3 := by
  refine ⟨?_, ?_, by decide⟩
  · intro cfg ens sws
    simp [clean_parallel, helper_no_score, runNoScore_pairs, initPar]
  · intro cfg ens sws scores
    simp [clean_parallel, helper_with_score, runWithScore_pairs, initPar]

/-- Claim C8: for every run of `clean_parallel`, in both variants, the two
output files are the two projections of a single sublist of the positionally
zipped input, so the Nth output-source line and the Nth output-target line
always originate from the same zipped record, i.e. the same input line
index, one line written to each stream per kept record. -/
theorem output_alignment :
    (∀ (cfg : ParallelCfg) (ens sws : List Line),
      ∃ recs : List (Line × Line), recs.Sublist (ens.zip sws) ∧
        (clean_parallel cfg ens sws none).outEn =
          recs.map (fun r => normalizeLine r.1) ∧
        (clean_parallel cfg ens sws none).outSw =
          recs.map (fun r => normalizeLine r.2)) ∧
    (∀ (cfg : ParallelCfg) (ens sws scores : List Line),
      ∃ recs : List (Line × Line × Line), recs.Sublist (ens.zip (sws.zip scores)) ∧
        (clean_parallel cfg ens sws (some scores)).outEn =
          recs.map (fun r => normalizeLine r.1) ∧
        (clean_parallel cfg ens sws (some scores)).outSw =
          recs.map (fun r => normalizeLine r.2.1)) := by
  constructor
  · intro cfg ens sws
    rcases runNoScore_align cfg (ens.zip sws) (initPar cfg.dedup) with ⟨recs, hsub, hEn, hSw⟩
    exact ⟨recs, hsub, by simpa [initPar] using hEn, by simpa [initPar] using hSw⟩
  · intro cfg ens sws scores
    rcases runWithScore_align cfg (ens.zip (sws.zip scores)) (initPar cfg.dedup) with
      ⟨recs, hsub, hEn, hSw⟩
    exact ⟨recs, hsub, by simpa [initPar] using hEn, by simpa [initPar] using hSw⟩

/-- Claim C9: in both drivers every processed record is counted exactly
once as kept or as dropped — each loop body increases `kept + dropped` by
exactly one, and at end of run `kept + dropped` equals the number of records
processed. -/
theorem counters_partition :
    (∀ (cfg : ParallelCfg) (st : ParState) (r : Line × Line),
      (stepNoScore cfg st r).kept + (stepNoScore cfg st r).dropped =
        st.kept + st.dropped + 1) ∧
    (∀ (cfg : ParallelCfg) (st : ParState) (r : Line × Line × Line),
      (stepWithScore cfg st r).kept + (stepWithScore cfg st r).dropped =
        st.kept + st.dropped + 1) ∧
    (∀ (mw : Nat) (st : MonoState) (line : Line),
      (stepMono mw st line).kept + (stepMono mw st line).dropped =
        st.kept + st.dropped + 1) ∧
    (∀ (cfg : ParallelCfg) (ens sws : List Line) (scores : Option (List Line)),
      (clean_parallel cfg ens sws scores).kept +
          (clean_parallel cfg ens sws scores).dropped =
        (clean_parallel cfg ens sws scores).pairs) ∧
    (∀ (lines : List Line) (mw : Nat) (dd : Bool),
      (clean_mono_gz lines mw dd).kept + (clean_mono_gz lines mw dd).dropped =
        (clean_mono_gz lines mw dd).processed) := by
  refine ⟨stepNoScore_counter, stepWithScore_counter, stepMono_counter, ?_, ?_⟩
  · intro cfg ens sws scores
    cases scores with
    | none =>
      simp [clean_parallel, helper_no_score, runNoScore_counter, runNoScore_pairs, initPar]
    | some sc =>
      simp [clean_parallel, helper_with_score, runWithScore_counter, runWithScore_pairs, initPar]
  · intro lines mw dd
    simp [clean_mono_gz, runMono_counter, runMono_processed]

/-- Claim C10: every line written by either driver is the normalized form
of one of its input lines and passed `bad_line`, hence is non-empty,
contains no replacement character, matches no URL-like or HTML-like pattern,
and contains at least one alphabetic character. -/
theorem output_well_formed :
    (∀ (cfg : ParallelCfg) (ens sws : List Line) (x : Line),
      x ∈ (clean_parallel cfg ens sws none).outEn →
        (∃ raw ∈ ens, x = normalizeLine raw) ∧ cleanOutput x) ∧
    (∀ (cfg : ParallelCfg) (ens sws : List Line) (x : Line),
      x ∈ (clean_parallel cfg ens sws none).outSw →
        (∃ raw ∈ sws, x = normalizeLine raw) ∧ cleanOutput x) ∧
    (∀ (cfg : ParallelCfg) (ens sws scores : List Line) (x : Line),
      x ∈ (clean_parallel cfg ens sws (some scores)).outEn →
        (∃ raw ∈ ens, x = normalizeLine raw) ∧ cleanOutput x) ∧
    (∀ (cfg : ParallelCfg) (ens sws scores : List Line) (x : Line),
      x ∈ (clean_parallel cfg ens sws (some scores)).outSw →
        (∃ raw ∈ sws, x = normalizeLine raw) ∧ cleanOutput x) ∧
    (∀ (lines : List Line) (mw : Nat) (dd : Bool) (x : Line),
      x ∈ (clean_mono_gz lines mw dd).out →
        (∃ raw ∈ lines, x = normalizeLine raw) ∧ cleanOutput x) := by
  refine ⟨?_, ?_, ?_, ?_, ?_⟩
  · intro cfg ens sws x hx
    rcases (runNoScore_out_mem cfg (ens.zip sws) (initPar cfg.dedup) x).1 hx with hmem | ⟨r, hr, hxe, hbad⟩
    · exact absurd hmem (by simp [initPar])
    · exact ⟨⟨r.1, (List.of_mem_zip hr).1, hxe⟩, cleanOutput_of_bad_line_false hbad⟩
  · intro cfg ens sws x hx
    rcases (runNoScore_out_mem cfg (ens.zip sws) (initPar cfg.dedup) x).2 hx with hmem | ⟨r, hr, hxe, hbad⟩
    · exact absurd hmem (by simp [initPar])
    · exact ⟨⟨r.2, (List.of_mem_zip hr).2, hxe⟩, cleanOutput_of_bad_line_false hbad⟩
  · intro cfg ens sws scores x hx
    rcases (runWithScore_out_mem cfg (ens.zip (sws.zip scores)) (initPar cfg.dedup) x).1 hx with
      hmem | ⟨r, hr, hxe, hbad⟩
    · exact absurd hmem (by simp [initPar])
    · exact ⟨⟨r.1, (List.of_mem_zip hr).1, hxe⟩, cleanOutput_of_bad_line_false hbad⟩
  · intro cfg ens sws scores x hx
    rcases (runWithScore_out_mem cfg (ens.zip (sws.zip scores)) (initPar cfg.dedup) x).2 hx with
      hmem | ⟨r, hr, hxe, hbad⟩
    · exact absurd hmem (by simp [initPar])
    · exact ⟨⟨r.2.1, (List.of_mem_zip (List.of_mem_zip hr).2).1, hxe⟩,
        cleanOutput_of_bad_line_false hbad⟩
  · intro lines mw dd x hx
    rcases runMono_out_mem mw lines
        ({ seen := if dd then some [] else none } : MonoState) x hx with
      hmem | ⟨r, hr, hxe, hbad⟩
    · exact absurd hmem (by simp)
    · exact ⟨⟨r, hr, hxe⟩, cleanOutput_of_bad_line_false hbad⟩

/-- Witness for claim C10: the single output line of a concrete
`clean_parallel` run is the normalized input and satisfies all
well-formedness facts. -/
theorem output_well_formed_witness :
    (∃ raw ∈ [("Nice day".data)], ("nice day".data) = normalizeLine raw) ∧
      cleanOutput ("nice day".data) :=
  output_well_formed.1 {} [("Nice day".data)] [("Buen dia".data)] ("nice day".data)
    (by decide)

/-- Claim C5: under the checks that precede it (no dedup set, both normalized
lines pass `bad_line` and the word-count cap), the no-score loop body keeps
or drops by comparing the length ratio with `max_ratio`, and the ratio is
exactly the rational number max(word counts) / max(1, min(word counts)); in
particular with the default `max_ratio = 3.0` a 3-word/30-word pair is
dropped (ratio 10) and a 10-word/25-word pair is kept past the ratio check
(ratio 2.5). -/
theorem ratio_gate :
    (∀ (cfg : ParallelCfg) (st : ParState) (en sw : Line),
      st.seen = none →
      bad_line (normalizeLine en) = false →
      bad_line (normalizeLine sw) = false →
      (pySplit (normalizeLine en)).length ≤ cfg.max_words →
      (pySplit (normalizeLine sw)).length ≤ cfg.max_words →
      0 < cfg.max_ratio.den →
      (lenRatio (pySplit (normalizeLine en)).length (pySplit (normalizeLine sw)).length).toRat =
        ((max (pySplit (normalizeLine en)).length (pySplit (normalizeLine sw)).length : Nat) : Rat) /
          ((max 1 (min (pySplit (normalizeLine en)).length
              (pySplit (normalizeLine sw)).length) : Nat) : Rat) ∧
      stepNoScore cfg st (en, sw) =
        if cfg.max_ratio.toRat <
            (lenRatio (pySplit (normalizeLine en)).length
              (pySplit (normalizeLine sw)).length).toRat
        then dropUpd st
        else keepUpd st (normalizeLine en) (normalizeLine sw)) ∧
    (stepNoScore {} {} (("c c c".data),
      ("d d d d d d d d d d d d d d d d d d d d d d d d d d d d d d".data))).dropped = 1 ∧
    (stepNoScore {} {} (("a a a a a a a a a a".data),
      ("b b b b b b b b b b b b b b b b b b b b b b b b b".data))).kept = 1 := by
  refine ⟨?_, by decide, by decide⟩
  intro cfg st en sw hseen hb1 hb2 hw1 hw2 hden
  exact ratio_gate_general cfg st en sw hseen hb1 hb2 hw1 hw2 hden

/-- Witness for claim C5 at the concrete 10-word/25-word pair: the
hypotheses of the ratio-gate theorem hold there and its keep/drop conclusion
follows by applying the theorem. -/
theorem ratio_gate_witness :
    ({} : ParState).seen = none ∧
    bad_line (normalizeLine (("a a a a a a a a a a").data)) = false ∧
    bad_line (normalizeLine (("b b b b b b b b b b b b b b b b b b b b b b b b b").data)) = false ∧
    (pySplit (normalizeLine (("a a a a a a a a a a").data))).length ≤
      ({} : ParallelCfg).max_words ∧
    (pySplit (normalizeLine (("b b b b b b b b b b b b b b b b b b b b b b b b b").data))).length ≤
      ({} : ParallelCfg).max_words ∧
    stepNoScore {} {} ((("a a a a a a a a a a").data),
        (("b b b b b b b b b b b b b b b b b b b b b b b b b").data)) =
      if ({} : ParallelCfg).max_ratio.toRat <
          (lenRatio (pySplit (normalizeLine (("a a a a a a a a a a").data))).length
            (pySplit (normalizeLine (("b b b b b b b b b b b b b b b b b b b b b b b b b").data))).length).toRat
      then dropUpd {}
      else keepUpd {} (normalizeLine (("a a a a a a a a a a").data))
        (normalizeLine (("b b b b b b b b b b b b b b b b b b b b b b b b b").data)) :=
  ⟨rfl, by decide, by decide, by decide, by decide,
    (ratio_gate.1 {} {} (("a a a a a a a a a a").data)
      (("b b b b b b b b b b b b b b b b b b b b b b b b b").data)
      rfl (by decide) (by decide) (by decide) (by decide) (by decide)).2⟩
